import Mathlib

/-!
Verification development for the gaming backend's real-time leaderboard
subsystem: the ranking engine (`leaderboard.py`), the score-submission
handler (`games.py`), and the WebSocket broadcast registry (`ws.py`).

Modelling conventions:
* a row of the `scores` table is a `ScoreEvent`; the table itself is a
  `List ScoreEvent` (SQL bag semantics);
* `created_at` timestamps are modelled as `Nat`; the code stores them as
  uniformly formatted SQLite `CURRENT_TIMESTAMP` strings whose lexicographic
  comparison agrees with chronological order, so any totally ordered
  timestamp domain is faithful;
* SQL `ORDER BY best_score DESC, best_at ASC, user_id ASC` is modelled with
  `List.insertionSort` over the corresponding total preorder; rows tied on
  all three sort keys project to identical output tuples, so the projected
  output does not depend on how such ties are broken.
-/

/-- A row of the `scores` table (see `CREATE_SCORES_SQL` in `games.py`). -/
structure ScoreEvent where
  id : Nat
  game_id : Nat
  user_id : Nat
  score : Nat
  created_at : Nat
deriving DecidableEq, Repr

/-- The `NOT EXISTS` subquery condition shared by the leaderboard queries:
`s2` beats `s` when they belong to the same game and user and `s2` has a
strictly higher score, or an equal score achieved strictly earlier. -/
def dominates (s2 s : ScoreEvent) : Bool :=
  s2.game_id == s.game_id && s2.user_id == s.user_id &&
    (decide (s.score < s2.score) ||
      (s2.score == s.score && decide (s2.created_at < s.created_at)))

/-- Proposition form of the value comparison inside `dominates`, and also the
comparison used by the rank-counting query of `get_user_leaderboard_entry`:
`b` sorts strictly before a row with score `x.score` achieved at
`x.created_at` (score descending, then `created_at` ascending). -/
def ranksBefore (b x : ScoreEvent) : Prop :=
  x.score < b.score ∨ (b.score = x.score ∧ b.created_at < x.created_at)

instance (b x : ScoreEvent) : Decidable (ranksBefore b x) :=
  inferInstanceAs (Decidable
    (x.score < b.score ∨ (b.score = x.score ∧ b.created_at < x.created_at)))

/-- Rows selected by the leaderboard query of `get_top_leaderboard`: rows of
the game that no other row of the same game and user beats. -/
def bestScoreRows (log : List ScoreEvent) (g : Nat) : List ScoreEvent :=
  log.filter (fun s => s.game_id == g && !(log.any (fun s2 => dominates s2 s)))

/-- The total preorder realised by `ORDER BY best_score DESC, best_at ASC,
user_id ASC`. -/
def entryLE (a b : ScoreEvent) : Prop :=
  b.score < a.score ∨
    (a.score = b.score ∧
      (a.created_at < b.created_at ∨
        (a.created_at = b.created_at ∧ a.user_id ≤ b.user_id)))

instance : DecidableRel entryLE := fun a b =>
  inferInstanceAs (Decidable
    (b.score < a.score ∨
      (a.score = b.score ∧
        (a.created_at < b.created_at ∨
          (a.created_at = b.created_at ∧ a.user_id ≤ b.user_id)))))

instance : IsTotal ScoreEvent entryLE :=
  ⟨by intro a b; unfold entryLE; omega⟩

instance : IsTrans ScoreEvent entryLE :=
  ⟨by intro a b c; unfold entryLE; omega⟩

/-- One row of a leaderboard page (the columns the query projects). -/
structure LeaderboardEntry where
  user_id : Nat
  best_score : Nat
  best_at : Nat
deriving DecidableEq, Repr

/-- Projection of a selected score row to the columns returned to clients. -/
def toEntry (s : ScoreEvent) : LeaderboardEntry :=
  ⟨s.user_id, s.score, s.created_at⟩

/-- The full (unpaginated) ordered leaderboard that `get_top_leaderboard`
slices with `LIMIT`/`OFFSET`. -/
def leaderboardAll (log : List ScoreEvent) (g : Nat) : List LeaderboardEntry :=
  (List.insertionSort entryLE (bestScoreRows log g)).map toEntry

/-- The `_validate_pagination` helper of `leaderboard.py`. -/
def validate_pagination (limit offset : Int) : Int × Int :=
  let limit := if limit < 1 then 10 else limit
  let limit := if limit > 100 then 100 else limit
  let offset := if offset < 0 then 0 else offset
  (limit, offset)

/-- The `LeaderboardPage` response model. -/
structure LeaderboardPage where
  game_id : Nat
  items : List LeaderboardEntry
  total_users : Nat
  limit : Int
  offset : Int
deriving DecidableEq, Repr

/-- The `SELECT COUNT(DISTINCT user_id) FROM scores WHERE game_id = ?`
query. -/
def totalUsers (log : List ScoreEvent) (g : Nat) : Nat :=
  ((log.filter (fun s => s.game_id == g)).map (fun s => s.user_id)).dedup.length

/-- The `get_top_leaderboard` route handler (for an existing game): validates
pagination, counts distinct users, and returns the ordered best-score page. -/
def get_top_leaderboard (log : List ScoreEvent) (g : Nat)
    (limit offset : Int) : LeaderboardPage :=
  let p := validate_pagination limit offset
  { game_id := g
    items := ((leaderboardAll log g).drop p.2.toNat).take p.1.toNat
    total_users := totalUsers log g
    limit := p.1
    offset := p.2 }

/-- The non-`None` payload of a `UserLeaderboardResponse`. -/
structure UserEntry where
  best_score : Nat
  best_at : Nat
  rank : Nat
deriving DecidableEq, Repr

/-- Rows selected by the per-user best-score query of
`get_user_leaderboard_entry` (same `NOT EXISTS` condition, restricted to one
user). -/
def userBestRows (log : List ScoreEvent) (g u : Nat) : List ScoreEvent :=
  log.filter (fun s =>
    s.game_id == g && s.user_id == u && !(log.any (fun s2 => dominates s2 s)))

/-- The `get_user_leaderboard_entry` route handler (for an existing game):
fetches the user's best row (`LIMIT 1`; every selected row carries the same
score and timestamp, see `userBestRows_values_eq`), then counts the best rows
of the game that sort strictly before it by score then timestamp, and returns
that count plus one as the rank. -/
def get_user_leaderboard_entry (log : List ScoreEvent) (g u : Nat) :
    Option UserEntry :=
  match (userBestRows log g u).head? with
  | none => none
  | some best =>
      let higher :=
        ((bestScoreRows log g).filter (fun b => decide (ranksBefore b best))).length
      some ⟨best.score, best.created_at, higher + 1⟩

/-!
The broadcast registry of `ws.py`. WebSocket handles are modelled as `Nat`
identifiers; the Python `set`s become duplicate-free `List Nat`s and the
`dict` keyed by `game_id` becomes an association list with duplicate-free
keys (`Registry.WF`). `int(...)` on the query string can yield negative
numbers, so registry game ids are `Int`.
-/

/-- The module-level registry state of `ws.py`: `_connections_by_game` plus
`_all_connections`. -/
structure Registry where
  byGame : List (Int × List Nat)
  allConns : List Nat
deriving DecidableEq, Repr

/-- Dictionary lookup `_connections_by_game.get(game_id)`. -/
def lookupBucket (r : Registry) (g : Int) : Option (List Nat) :=
  (r.byGame.find? (fun p => p.1 == g)).map (fun p => p.2)

/-- The snapshot `_connections_by_game.get(game_id, set())` taken by the
broadcast. -/
def scopedBucket (r : Registry) (g : Int) : List Nat :=
  (lookupBucket r g).getD []

/-- Python `set.add`: a duplicate-safe insert. -/
def insertHandle (ws : Nat) (l : List Nat) : List Nat :=
  if ws ∈ l then l else l ++ [ws]

/-- Well-formedness maintained by the Python data structures: dictionary keys
are unique, every bucket is a nonempty duplicate-free set, and the global set
is duplicate-free. -/
def Registry.WF (r : Registry) : Prop :=
  (r.byGame.map Prod.fst).Nodup ∧
    (∀ p ∈ r.byGame, p.2 ≠ [] ∧ p.2.Nodup) ∧ r.allConns.Nodup

instance (r : Registry) : Decidable r.WF :=
  inferInstanceAs (Decidable (_ ∧ _ ∧ _))

/-- The `_register_connection` coroutine: add the handle to the global set,
or to the game's bucket (`setdefault(game_id, set()).add(ws)`). -/
def _register_connection (r : Registry) (ws : Nat) (game_id : Option Int) :
    Registry :=
  match game_id with
  | none => { r with allConns := insertHandle ws r.allConns }
  | some g =>
      match lookupBucket r g with
      | none => { r with byGame := r.byGame ++ [(g, [ws])] }
      | some _ =>
          { r with
            byGame := r.byGame.map
              (fun p => if p.1 = g then (p.1, insertHandle ws p.2) else p) }

/-- The `_unregister_connection` coroutine: `discard` the handle from the
relevant set, and `pop` the game bucket when it becomes empty. -/
def _unregister_connection (r : Registry) (ws : Nat) (game_id : Option Int) :
    Registry :=
  match game_id with
  | none => { r with allConns := r.allConns.erase ws }
  | some g =>
      match lookupBucket r g with
      | none => r
      | some bucket =>
          let b := bucket.erase ws
          if b.isEmpty then
            { r with byGame := r.byGame.filter (fun p => !(p.1 == g)) }
          else
            { r with
              byGame := r.byGame.map (fun p => if p.1 = g then (p.1, b) else p) }

/-- The relevant set `_unregister_connection` removes from: the global set
when no game id was given, otherwise the game's bucket. -/
def relevantSet (r : Registry) (game_id : Option Int) : List Nat :=
  match game_id with
  | none => r.allConns
  | some g => scopedBucket r g

/-- The transport environment: the outcome of `ws.send_text` for each handle.
An `Except.error` models the exception a closed or broken socket raises. -/
abbrev SendEnv := Nat → Except Unit Unit

/-- Whether the raw send to a handle succeeds under the given transport. -/
def sendOk (send : SendEnv) (ws : Nat) : Bool :=
  match send ws with
  | .ok _ => true
  | .error _ => false

/-- The `_safe_send` coroutine: attempt the raw send; a raised exception is
caught and converted to `False` instead of propagating. -/
def _safe_send (send : SendEnv) (ws : Nat) : Except Unit Bool :=
  match send ws with
  | .ok _ => .ok true
  | .error _ => .ok false

/-- First loop of `notify_leaderboard_update`: send to each game-scoped
handle, recording the handles that were successfully delivered to. Returns
the attempted handles in order and the delivered set. An uncaught exception
in the loop body would propagate as `Except.error` and abort the loop. -/
def sendScoped (send : SendEnv) : List Nat → Except Unit (List Nat × List Nat)
  | [] => .ok ([], [])
  | ws :: rest =>
      match _safe_send send ws with
      | .error e => .error e
      | .ok ok =>
          match sendScoped send rest with
          | .error e => .error e
          | .ok (att, del) => .ok (ws :: att, if ok then ws :: del else del)

/-- Second loop of `notify_leaderboard_update`: send to each global handle
not already delivered to in the first loop. Returns the attempted handles in
order and the handles the message reached. -/
def sendGlobal (send : SendEnv) (delivered : List Nat) :
    List Nat → Except Unit (List Nat × List Nat)
  | [] => .ok ([], [])
  | ws :: rest =>
      if ws ∈ delivered then sendGlobal send delivered rest
      else
        match _safe_send send ws with
        | .error e => .error e
        | .ok ok =>
            match sendGlobal send delivered rest with
            | .error e => .error e
            | .ok (att, del) => .ok (ws :: att, if ok then ws :: del else del)

/-- The `notify_leaderboard_update` coroutine: under the registry lock take
snapshot copies of the game's bucket and the global set, then (lock released)
send to the game-scoped handles first and to the not-yet-delivered global
handles second. The returned triple carries the registry state the call
leaves behind, the attempted handles in order, and the handles the message
was actually delivered to. -/
def notify_leaderboard_update (send : SendEnv) (r : Registry) (g : Int) :
    Except Unit (Registry × List Nat × List Nat) :=
  let game_scoped := scopedBucket r g
  let global_listeners := r.allConns
  match sendScoped send game_scoped with
  | .error e => .error e
  | .ok (att1, del1) =>
      match sendGlobal send del1 global_listeners with
      | .error e => .error e
      | .ok (att2, del2) => .ok (r, att1 ++ att2, del1 ++ del2)

/-!
The `leaderboard_ws` endpoint: parsing of the `game_id` query parameter with
Python `int(...)` semantics, and the keep-alive reply logic. Python strings
are modelled as `List Char`; `str.strip()` and `str.lower()` are modelled
over the ASCII whitespace and letter ranges the protocol uses.
-/

/-- Characters Python `str.strip()` removes (ASCII whitespace). -/
def isPySpace (c : Char) : Bool :=
  c == ' ' || c == '\t' || c == '\n' || c == '\r' || c == '\x0b' || c == '\x0c'

/-- Python `str.strip()`: drop leading and trailing whitespace. -/
def pyStrip (cs : List Char) : List Char :=
  ((cs.dropWhile isPySpace).reverse.dropWhile isPySpace).reverse

/-- Python `str.lower()` on the ASCII range. -/
def pyLower (cs : List Char) : List Char :=
  cs.map Char.toLower

/-- Digit tail of a Python integer literal: digits with single underscores
allowed between digits (no leading, trailing or doubled underscore). -/
def digitsUnd : List Char → Bool
  | [] => true
  | '_' :: c :: rest => c.isDigit && digitsUnd rest
  | c :: rest => c.isDigit && digitsUnd rest

/-- Decimal value of a digit string (underscores already removed). -/
def digitsToNat (cs : List Char) : Nat :=
  cs.foldl (fun acc c => acc * 10 + (c.toNat - 48)) 0

/-- Model of Python's built-in `int(str)` conversion used on the `game_id`
query parameter: strip whitespace, accept an optional sign followed by a
nonempty digit sequence (with single underscores between digits), and return
`none` where `int(...)` raises `ValueError`. -/
def pyInt (cs0 : List Char) : Option Int :=
  let cs := pyStrip cs0
  let core :=
    match cs with
    | '-' :: rest => (true, rest)
    | '+' :: rest => (false, rest)
    | _ => (false, cs)
  match core.2 with
  | [] => none
  | c :: rest =>
      if c.isDigit && digitsUnd rest then
        let n : Int := Int.ofNat (digitsToNat ((c :: rest).filter (fun d => d != '_')))
        some (if core.1 then -n else n)
      else none

/-- Subscription phase of `leaderboard_ws`: parse the optional `game_id`
query parameter (`ValueError` from `int(...)` is caught and degrades to a
global subscription), then register the connection under that filter.
Returns the updated registry and the game filter used. -/
def leaderboard_ws_subscribe (r : Registry) (ws : Nat)
    (raw_game_id : Option (List Char)) : Registry × Option Int :=
  let game_filter :=
    match raw_game_id with
    | none => none
    | some s => pyInt s
  (_register_connection r ws game_filter, game_filter)

/-- One step of the `leaderboard_ws` receive loop: an inbound text message is
answered with `pong` when it equals `ping` after stripping and lowering, and
is ignored otherwise. -/
def wsReply (data : List Char) : Option (List Char) :=
  if pyLower (pyStrip data) = ['p', 'i', 'n', 'g'] then some ['p', 'o', 'n', 'g']
  else none

/-!
The score-submission handler `post_game_score` of `games.py`, modelled as the
sequence of collaborator effects the handler performs on its success path.
-/

/-- Collaborator calls a score submission can perform. -/
inductive SubmitEffect where
  | appendEvent
  | computeStats
  | broadcastUpdate
deriving DecidableEq, Repr

/-- The `post_game_score` route handler as its effect trace: validate
`user_id` and `score` (400), look up the game (404), then call
`_insert_score` followed by `_score_stats` and return. The handler contains
no call to `notify_leaderboard_update`, so no `broadcastUpdate` effect ever
appears. -/
def post_game_score (gameExists : Bool) (user_id score : Int) :
    Except Nat (List SubmitEffect) :=
  if user_id < 1 then .error 400
  else if score < 0 then .error 400
  else if gameExists = false then .error 404
  else .ok [.appendEvent, .computeStats]

/-!
Concrete inputs used by counterexamples and witnesses.
-/

/-- Scenario log from the spec: events `(g=1,u=A,score=10,t=1)`,
`(g=1,u=B,score=10,t=2)`, `(g=1,u=A,score=5,t=3)` with `A = 1`, `B = 2`. -/
def c3log : List ScoreEvent := [⟨1, 1, 1, 10, 1⟩, ⟨2, 1, 2, 10, 2⟩, ⟨3, 1, 1, 5, 3⟩]

/-- Two rows for the same game and user with equal score and equal
`created_at` (two submissions of the same score within one timestamp tick). -/
def c1log : List ScoreEvent := [⟨1, 1, 1, 10, 5⟩, ⟨2, 1, 1, 10, 5⟩]

/-- Two users tied on both score and `created_at` for the same game. -/
def c2log : List ScoreEvent := [⟨1, 1, 1, 10, 5⟩, ⟨2, 1, 2, 10, 5⟩]

/-- Two users with distinct best keys, for the rank witness. -/
def c2wlog : List ScoreEvent := [⟨1, 1, 1, 10, 1⟩, ⟨2, 1, 2, 10, 2⟩]

/-!
Basic facts about the selection predicate of the leaderboard queries.
-/

/-- Proposition form of `dominates`. -/
def dominatesP (s2 s : ScoreEvent) : Prop :=
  s2.game_id = s.game_id ∧ s2.user_id = s.user_id ∧
    (s.score < s2.score ∨ (s2.score = s.score ∧ s2.created_at < s.created_at))

theorem dominates_eq_true_iff {s2 s : ScoreEvent} :
    dominates s2 s = true ↔ dominatesP s2 s := by
  simp [dominates, dominatesP, and_assoc]

theorem mem_bestScoreRows {log : List ScoreEvent} {g : Nat} {s : ScoreEvent} :
    s ∈ bestScoreRows log g ↔
      s ∈ log ∧ s.game_id = g ∧ ∀ s2 ∈ log, ¬ dominatesP s2 s := by
  simp [bestScoreRows, List.mem_filter, dominates_eq_true_iff, and_assoc]

theorem mem_userBestRows {log : List ScoreEvent} {g u : Nat} {s : ScoreEvent} :
    s ∈ userBestRows log g u ↔
      s ∈ log ∧ s.game_id = g ∧ s.user_id = u ∧ ∀ s2 ∈ log, ¬ dominatesP s2 s := by
  simp [userBestRows, List.mem_filter, dominates_eq_true_iff, and_assoc]

/-- The per-user query selects exactly the game-wide best rows that belong to
the user. -/
theorem userBestRows_eq_filter (log : List ScoreEvent) (g u : Nat) :
    userBestRows log g u = (bestScoreRows log g).filter (fun s => s.user_id == u) := by
  rw [bestScoreRows, List.filter_filter]
  apply List.filter_congr
  intro a _
  cases a.game_id == g <;> cases a.user_id == u <;>
    cases !(log.any (fun s2 => dominates s2 a)) <;> rfl

/-- Any two rows the per-user query can select carry the same score and the
same timestamp: neither beats the other, so both values coincide. -/
theorem userBestRows_values_eq {log : List ScoreEvent} {g u : Nat}
    {a b : ScoreEvent} (ha : a ∈ userBestRows log g u)
    (hb : b ∈ userBestRows log g u) :
    a.score = b.score ∧ a.created_at = b.created_at := by
  rw [mem_userBestRows] at ha hb
  obtain ⟨haL, hag, hau, hand⟩ := ha
  obtain ⟨hbL, hbg, hbu, hbnd⟩ := hb
  have h1 : ¬(a.score < b.score ∨ (b.score = a.score ∧ b.created_at < a.created_at)) :=
    fun hv => hand b hbL ⟨by rw [hbg, hag], by rw [hbu, hau], hv⟩
  have h2 : ¬(b.score < a.score ∨ (a.score = b.score ∧ a.created_at < b.created_at)) :=
    fun hv => hbnd a haL ⟨by rw [hbg, hag], by rw [hbu, hau], hv⟩
  omega

theorem ranksBefore_irrefl (a : ScoreEvent) : ¬ ranksBefore a a := by
  unfold ranksBefore; omega

theorem ranksBefore_asymm {a b : ScoreEvent} (h : ranksBefore a b) :
    ¬ ranksBefore b a := by
  unfold ranksBefore at *; omega

theorem ranksBefore_trans {a b c : ScoreEvent} (h1 : ranksBefore a b)
    (h2 : ranksBefore b c) : ranksBefore a c := by
  unfold ranksBefore at *; omega

/-- Every nonempty list of rows has a row no other row of the list sorts
strictly before (an argmax for score descending, timestamp ascending). -/
theorem exists_maximal_row :
    ∀ l : List ScoreEvent, l ≠ [] → ∃ s ∈ l, ∀ e ∈ l, ¬ ranksBefore e s := by
  intro l
  induction l with
  | nil => intro h; exact absurd rfl h
  | cons a t ih =>
    intro _
    rcases eq_or_ne t [] with rfl | ht
    · exact ⟨a, List.mem_singleton.mpr rfl, by
        intro e he
        rw [List.mem_singleton] at he
        rw [he]
        exact ranksBefore_irrefl _⟩
    · obtain ⟨s, hs, hmax⟩ := ih ht
      by_cases has : ranksBefore a s
      · refine ⟨a, List.mem_cons_self a t, ?_⟩
        intro e he
        rcases List.mem_cons.mp he with rfl | he
        · exact ranksBefore_irrefl e
        · intro hea
          exact hmax e he (ranksBefore_trans hea has)
      · refine ⟨s, List.mem_cons_of_mem a hs, ?_⟩
        intro e he
        rcases List.mem_cons.mp he with rfl | he
        · exact has
        · exact hmax e he

/-- Whenever the user has an event for the game, the per-user query selects
at least one row. -/
theorem userBestRows_ne_nil {log : List ScoreEvent} {g u : Nat}
    {e : ScoreEvent} (heL : e ∈ log) (heg : e.game_id = g)
    (heu : e.user_id = u) : userBestRows log g u ≠ [] := by
  have hmem : e ∈ log.filter (fun s => s.game_id == g && s.user_id == u) := by
    simp [List.mem_filter, heL, heg, heu]
  have hne : log.filter (fun s => s.game_id == g && s.user_id == u) ≠ [] :=
    List.ne_nil_of_mem hmem
  obtain ⟨s, hs, hmax⟩ := exists_maximal_row _ hne
  rw [List.mem_filter] at hs
  obtain ⟨hsL, hsP⟩ := hs
  simp only [Bool.and_eq_true, beq_iff_eq] at hsP
  apply List.ne_nil_of_mem (a := s)
  rw [mem_userBestRows]
  refine ⟨hsL, hsP.1, hsP.2, ?_⟩
  intro s2 hs2 hdom
  obtain ⟨hg2, hu2, hv⟩ := hdom
  have hs2mem : s2 ∈ log.filter (fun s => s.game_id == g && s.user_id == u) := by
    simp [List.mem_filter, hs2, hg2, hu2, hsP.1, hsP.2]
  exact hmax s2 hs2mem hv

/-!
Sorting facts connecting the `ORDER BY` comparator with the rank count.
-/

/-- Two rows differ on the sort keys the rank count inspects (score or
timestamp). -/
def keyNE (a b : ScoreEvent) : Prop :=
  a.score ≠ b.score ∨ a.created_at ≠ b.created_at

instance (a b : ScoreEvent) : Decidable (keyNE a b) :=
  inferInstanceAs (Decidable (a.score ≠ b.score ∨ a.created_at ≠ b.created_at))

theorem keyNE_symm : Symmetric keyNE := by
  intro a b h
  unfold keyNE at *
  omega

theorem entryLE_keyNE_ranksBefore {a b : ScoreEvent} (h1 : entryLE a b)
    (h2 : keyNE a b) : ranksBefore a b := by
  unfold entryLE keyNE ranksBefore at *
  omega

theorem ranksBefore_congr {y x b : ScoreEvent} (hs : y.score = x.score)
    (ht : y.created_at = x.created_at) : ranksBefore b y ↔ ranksBefore b x := by
  unfold ranksBefore
  rw [hs, ht]

/-- When the best rows of a game are pairwise distinct on (score, timestamp),
the sorted leaderboard is strictly sorted for `ranksBefore`. -/
theorem insertionSort_pairwise_ranksBefore {log : List ScoreEvent} {g : Nat}
    (hkeys : (bestScoreRows log g).Pairwise keyNE) :
    (List.insertionSort entryLE (bestScoreRows log g)).Pairwise ranksBefore := by
  have hs : (List.insertionSort entryLE (bestScoreRows log g)).Pairwise entryLE :=
    List.sorted_insertionSort entryLE (bestScoreRows log g)
  have hk : (List.insertionSort entryLE (bestScoreRows log g)).Pairwise keyNE :=
    (List.Perm.pairwise_iff (fun h => keyNE_symm h)
      (List.perm_insertionSort entryLE (bestScoreRows log g))).mpr hkeys
  exact (hs.and hk).imp (fun h => entryLE_keyNE_ranksBefore h.1 h.2)

/-- In a strictly sorted list, the number of elements sorting strictly before
the element at position `i` is exactly `i`. -/
theorem countP_eq_index_of_pairwise :
    ∀ (l : List ScoreEvent), l.Pairwise ranksBefore →
      ∀ i (hi : i < l.length),
        l.countP (fun b => decide (ranksBefore b (l.get ⟨i, hi⟩))) = i := by
  intro l
  induction l with
  | nil => intro _ i hi; exact absurd hi (by simp)
  | cons a t ih =>
    intro hp i hi
    obtain ⟨hhead, htail⟩ := List.pairwise_cons.mp hp
    match i with
    | 0 =>
      show List.countP (fun b => decide (ranksBefore b a)) (a :: t) = 0
      rw [List.countP_eq_zero]
      intro b hb
      rcases List.mem_cons.mp hb with rfl | hb
      · simpa using ranksBefore_irrefl b
      · simpa using ranksBefore_asymm (hhead b hb)
    | i + 1 =>
      have hi' : i < t.length := by simpa using hi
      show List.countP (fun b => decide (ranksBefore b (t.get ⟨i, hi'⟩))) (a :: t) = i + 1
      have hx : t.get ⟨i, hi'⟩ ∈ t := List.get_mem t i hi'
      have hax : decide (ranksBefore a (t.get ⟨i, hi'⟩)) = true :=
        decide_eq_true (hhead _ hx)
      rw [List.countP_cons, ih htail i hi', hax]
      simp

/-!
Claims C1, C2, C3 about the ranking engine.
-/

/-- C1: the claim "get_top_leaderboard returns each distinct user_id with at
least one score exactly once" fails on the code: with two rows for game 1 and
user 1 both scoring 10 at the same `created_at`, the `NOT EXISTS` selection
keeps both rows, so user 1 appears twice among the items even though
`total_users` counts one distinct user. This evaluates the handler at that
failing input. -/
theorem C1_duplicate_user_on_page :
    (get_top_leaderboard c1log 1 100 0).items = [⟨1, 10, 5⟩, ⟨1, 10, 5⟩] ∧
      (get_top_leaderboard c1log 1 100 0).total_users = 1 := by
  constructor <;> rfl

/-- C2 counterexample: with users 1 and 2 tied on both score and
`created_at`, the full ordering places user 2 at 1-based position 2 (user_id
is the final `ORDER BY` key), yet `get_user_leaderboard_entry` counts no
strictly-better best row (the count ignores the user_id tie-break) and
returns rank 1, so the claimed rank/position agreement fails. -/
theorem C2_claim_counterexample :
    (leaderboardAll c2log 1).map (fun e => e.user_id) = [1, 2] ∧
      (get_user_leaderboard_entry c2log 1 2).map (fun e => e.rank) = some 1 ∧
      (1 : Nat) ≠ 2 := by
  refine ⟨rfl, rfl, by decide⟩

/-- C2 as amended: whenever the best rows of the game are pairwise distinct
on the (score, created_at) pair — in particular whenever no two users tie on
both keys — the rank returned by `get_user_leaderboard_entry` equals the
user's 1-based position in the full ordering produced by
`get_top_leaderboard`, i.e. one plus the number of best rows that sort
strictly before the user's best under score descending then `created_at`
ascending. -/
theorem C2_rank_equals_position (log : List ScoreEvent) (g u i : Nat)
    (hkeys : (bestScoreRows log g).Pairwise keyNE)
    (hi : i < (leaderboardAll log g).length)
    (hu : ((leaderboardAll log g).get ⟨i, hi⟩).user_id = u) :
    (get_user_leaderboard_entry log g u).map (fun e => e.rank) = some (i + 1) := by
  have hi' : i < (List.insertionSort entryLE (bestScoreRows log g)).length := by
    simpa [leaderboardAll] using hi
  have hxu : ((List.insertionSort entryLE (bestScoreRows log g))[i]).user_id = u := by
    simpa [leaderboardAll, List.get_eq_getElem, List.getElem_map, toEntry] using hu
  have hxrows : (List.insertionSort entryLE (bestScoreRows log g))[i] ∈
      bestScoreRows log g :=
    (List.mem_insertionSort entryLE).mp (List.getElem_mem hi')
  have hxub : (List.insertionSort entryLE (bestScoreRows log g))[i] ∈
      userBestRows log g u := by
    rw [userBestRows_eq_filter, List.mem_filter]
    exact ⟨hxrows, by simp [hxu]⟩
  obtain ⟨y, t, hyt⟩ := List.exists_cons_of_ne_nil (List.ne_nil_of_mem hxub)
  have hhead : (userBestRows log g u).head? = some y := by rw [hyt]; rfl
  have hymem : y ∈ userBestRows log g u := by rw [hyt]; exact List.mem_cons_self y t
  have hval := userBestRows_values_eq hymem hxub
  have hresult : get_user_leaderboard_entry log g u =
      some ⟨y.score, y.created_at,
        ((bestScoreRows log g).filter (fun b => decide (ranksBefore b y))).length + 1⟩ := by
    unfold get_user_leaderboard_entry
    rw [hhead]
  have hcount : ((bestScoreRows log g).filter (fun b => decide (ranksBefore b y))).length = i := by
    rw [← List.countP_eq_length_filter]
    have h1 : List.countP (fun b => decide (ranksBefore b y)) (bestScoreRows log g) =
        List.countP
          (fun b => decide (ranksBefore b ((List.insertionSort entryLE (bestScoreRows log g))[i])))
          (bestScoreRows log g) :=
      List.countP_congr (fun b _ => by
        simp only [decide_eq_true_eq]
        exact ranksBefore_congr hval.1 hval.2)
    rw [h1,
      ← List.Perm.countP_eq _ (List.perm_insertionSort entryLE (bestScoreRows log g))]
    simpa [List.get_eq_getElem] using
      countP_eq_index_of_pairwise _ (insertionSort_pairwise_ranksBefore hkeys) i hi'
  rw [hresult, hcount]
  rfl

/-- C2 witness: in a log where user 1 has best (10, t=1) and user 2 has best
(10, t=2), user 2 sits at 1-based position 2 of the full ordering and its
returned rank is 2. -/
theorem C2_rank_equals_position_witness :
    (get_user_leaderboard_entry c2wlog 1 2).map (fun e => e.rank) = some (1 + 1) :=
  C2_rank_equals_position c2wlog 1 2 1 (by decide) (by decide) (by decide)

/-- C3: for every (game, user) pair with at least one event,
`get_user_leaderboard_entry` selects the user's event with the maximum score,
and among score ties the earliest `created_at` (an actual event of the user
attains exactly those values); and on the spec scenario log
`[(g=1,u=1,s=10,t=1), (g=1,u=2,s=10,t=2), (g=1,u=1,s=5,t=3)]` user 1's best
is (10, t=1), the full ordering is `[user 1 (10,1), user 2 (10,2)]`, and user
2's rank is 2. -/
theorem C3_best_score_rule :
    (∀ (log : List ScoreEvent) (g u : Nat) (e : ScoreEvent),
      e ∈ log → e.game_id = g → e.user_id = u →
        ∃ ent, get_user_leaderboard_entry log g u = some ent ∧
          (∀ e2 ∈ log, e2.game_id = g → e2.user_id = u →
            e2.score ≤ ent.best_score ∧
              (e2.score = ent.best_score → ent.best_at ≤ e2.created_at)) ∧
          (∃ e2 ∈ log, e2.game_id = g ∧ e2.user_id = u ∧
            e2.score = ent.best_score ∧ e2.created_at = ent.best_at)) ∧
      leaderboardAll c3log 1 = [⟨1, 10, 1⟩, ⟨2, 10, 2⟩] ∧
      get_user_leaderboard_entry c3log 1 1 = some ⟨10, 1, 1⟩ ∧
      (get_user_leaderboard_entry c3log 1 2).map (fun x => x.rank) = some 2 := by
  refine ⟨?_, rfl, rfl, rfl⟩
  intro log g u e heL heg heu
  have hne : userBestRows log g u ≠ [] := userBestRows_ne_nil heL heg heu
  obtain ⟨y, t, hyt⟩ := List.exists_cons_of_ne_nil hne
  have hhead : (userBestRows log g u).head? = some y := by rw [hyt]; rfl
  have hymem : y ∈ userBestRows log g u := by rw [hyt]; exact List.mem_cons_self y t
  refine ⟨⟨y.score, y.created_at,
    ((bestScoreRows log g).filter (fun b => decide (ranksBefore b y))).length + 1⟩,
    by unfold get_user_leaderboard_entry; rw [hhead], ?_, ?_⟩
  · intro e2 he2L he2g he2u
    rw [mem_userBestRows] at hymem
    obtain ⟨hyL, hyg, hyu, hynd⟩ := hymem
    have hnd : ¬ dominatesP e2 y := hynd e2 he2L
    have : ¬(y.score < e2.score ∨ (e2.score = y.score ∧ e2.created_at < y.created_at)) :=
      fun hv => hnd ⟨by rw [he2g, hyg], by rw [he2u, hyu], hv⟩
    dsimp only
    constructor
    · omega
    · intro hs
      omega
  · rw [mem_userBestRows] at hymem
    exact ⟨y, hymem.1, hymem.2.1, hymem.2.2.1, rfl, rfl⟩

/-- C3 witness: instantiated at the scenario log itself, user 1's returned
best dominates all of user 1's events and is attained by one of them. -/
theorem C3_best_score_rule_witness :
    ∃ ent, get_user_leaderboard_entry c3log 1 1 = some ent ∧
      (∀ e2 ∈ c3log, e2.game_id = 1 → e2.user_id = 1 →
        e2.score ≤ ent.best_score ∧
          (e2.score = ent.best_score → ent.best_at ≤ e2.created_at)) ∧
      (∃ e2 ∈ c3log, e2.game_id = 1 ∧ e2.user_id = 1 ∧
        e2.score = ent.best_score ∧ e2.created_at = ent.best_at) :=
  C3_best_score_rule.1 c3log 1 1 ⟨1, 1, 1, 10, 1⟩ (by decide) rfl rfl


theorem safe_send_eq (send : SendEnv) (ws : Nat) :
    _safe_send send ws = .ok (sendOk send ws) := by
  unfold _safe_send sendOk
  cases send ws <;> rfl

theorem sendScoped_eq (send : SendEnv) :
    ∀ l : List Nat,
      sendScoped send l = .ok (l, l.filter (fun ws => sendOk send ws)) := by
  intro l
  induction l with
  | nil => rfl
  | cons ws rest ih =>
    simp only [sendScoped, safe_send_eq, ih, List.filter_cons]

theorem sendGlobal_eq (send : SendEnv) (delivered : List Nat) :
    ∀ l : List Nat,
      sendGlobal send delivered l =
        .ok (l.filter (fun ws => decide (ws ∉ delivered)),
          (l.filter (fun ws => decide (ws ∉ delivered))).filter
            (fun ws => sendOk send ws)) := by
  intro l
  induction l with
  | nil => rfl
  | cons ws rest ih =>
    by_cases hmem : ws ∈ delivered
    · simp [sendGlobal, if_pos hmem, ih, List.filter_cons, hmem]
    · have hp : decide (ws ∉ delivered) = true := decide_eq_true hmem
      simp only [sendGlobal, if_neg hmem, safe_send_eq, ih, List.filter_cons, hp, if_true]

theorem notify_spec (send : SendEnv) (r : Registry) (g : Int) :
    notify_leaderboard_update send r g =
      .ok (r,
        scopedBucket r g ++
          r.allConns.filter (fun ws =>
            decide (ws ∉ (scopedBucket r g).filter (fun w => sendOk send w))),
        (scopedBucket r g).filter (fun ws => sendOk send ws) ++
          (r.allConns.filter (fun ws =>
            decide (ws ∉ (scopedBucket r g).filter (fun w => sendOk send w)))).filter
            (fun ws => sendOk send ws)) := by
  simp only [notify_leaderboard_update, sendScoped_eq, sendGlobal_eq]

/-- A bucket snapshot taken from a well-formed registry is duplicate-free. -/
theorem scopedBucket_nodup {r : Registry} (hwf : r.WF) (g : Int) :
    (scopedBucket r g).Nodup := by
  unfold scopedBucket lookupBucket
  cases hfind : r.byGame.find? (fun p => p.1 == g) with
  | none => simp
  | some p =>
      exact (hwf.2.1 p (List.mem_of_find?_eq_some hfind)).2

/-- Transport environment in which every send succeeds. -/
def send_all_ok : SendEnv := fun _ => .ok ()

/-- Transport environment in which sending to handle 1 raises and every
other send succeeds. -/
def send_fail_one : SendEnv := fun ws => if ws = 1 then .error () else .ok ()

/-- Registry of the spec scenario: S1 = handle 1 scoped to game 7, S2 =
handle 2 global, S3 = handle 3 scoped to game 9. -/
def c4reg : Registry := ⟨[(7, [1]), (9, [3])], [2]⟩

/-- Registry with handles 1 and 4 scoped to game 5 and handle 6 global. -/
def c6reg : Registry := ⟨[(5, [1, 4])], [6]⟩

/-- Registry with handle 4 scoped to game 3 and handle 8 global. -/
def c10reg : Registry := ⟨[(3, [4])], [8]⟩

/-- C4: one `notify_leaderboard_update` call attempts delivery exactly to the
snapshot of the game's bucket plus the global set (so never to a handle only
scoped to a different game), attempts all game-scoped recipients before any
global one, and actually delivers at most one message per handle even when a
handle sits in both the scoped bucket and the global set. -/
theorem C4_broadcast_recipients (send : SendEnv) (r : Registry) (g : Int)
    (att del : List Nat) (hwf : r.WF)
    (hrun : notify_leaderboard_update send r g = .ok (r, att, del)) :
    (∀ h, h ∈ att ↔ (h ∈ scopedBucket r g ∨ h ∈ r.allConns)) ∧
      (∃ tailAtt, att = scopedBucket r g ++ tailAtt ∧
        ∀ h ∈ tailAtt, h ∈ r.allConns) ∧
      (∀ h, att.count h ≤ 2 ∧ del.count h ≤ 1) := by
  rw [notify_spec] at hrun
  simp only [Except.ok.injEq, Prod.mk.injEq, true_and] at hrun
  obtain ⟨hatt, hdel⟩ := hrun
  subst hatt
  subst hdel
  have hsnodup : (scopedBucket r g).Nodup := scopedBucket_nodup hwf g
  have hgnodup : r.allConns.Nodup := hwf.2.2
  refine ⟨?_, ⟨_, rfl, fun h hh => List.mem_of_mem_filter hh⟩, ?_⟩
  · intro h
    constructor
    · intro hmem
      rcases List.mem_append.mp hmem with h1 | h2
      · exact Or.inl h1
      · exact Or.inr (List.mem_of_mem_filter h2)
    · intro hmem
      rcases hmem with h1 | h2
      · exact List.mem_append.mpr (Or.inl h1)
      · by_cases hd : h ∈ (scopedBucket r g).filter (fun w => sendOk send w)
        · exact List.mem_append.mpr (Or.inl (List.mem_of_mem_filter hd))
        · refine List.mem_append.mpr (Or.inr ?_)
          rw [List.mem_filter]
          exact ⟨h2, decide_eq_true hd⟩
  · have h1 : ((scopedBucket r g).filter (fun ws => sendOk send ws)).Nodup :=
      hsnodup.filter _
    have h2 : ((r.allConns.filter (fun ws =>
        decide (ws ∉ (scopedBucket r g).filter (fun w => sendOk send w)))).filter
          (fun ws => sendOk send ws)).Nodup :=
      (hgnodup.filter _).filter _
    have hdisj : ((scopedBucket r g).filter (fun ws => sendOk send ws)).Disjoint
        ((r.allConns.filter (fun ws =>
          decide (ws ∉ (scopedBucket r g).filter (fun w => sendOk send w)))).filter
            (fun ws => sendOk send ws)) := by
      intro a ha1 ha2
      have hflt := (List.mem_filter.mp (List.mem_of_mem_filter ha2)).2
      exact (of_decide_eq_true hflt) ha1
    intro h
    constructor
    · have hc1 : (scopedBucket r g).count h ≤ 1 :=
        List.nodup_iff_count_le_one.mp hsnodup h
      have hc2 : (r.allConns.filter (fun ws =>
          decide (ws ∉ (scopedBucket r g).filter (fun w => sendOk send w)))).count h ≤ 1 :=
        List.nodup_iff_count_le_one.mp (hgnodup.filter _) h
      rw [List.count_append]
      omega
    · exact List.nodup_iff_count_le_one.mp
        ((h1.append h2) hdisj) h

/-- C4 witness: broadcasting to game 7 with S1 = 1 scoped to 7, S2 = 2
global, S3 = 3 scoped to 9 attempts exactly handles 1 and 2 (1 before 2,
never 3) and delivers once to each. -/
theorem C4_broadcast_recipients_witness :
    (∀ h, h ∈ ([1, 2] : List Nat) ↔ (h ∈ scopedBucket c4reg 7 ∨ h ∈ c4reg.allConns)) ∧
      (∃ tailAtt, ([1, 2] : List Nat) = scopedBucket c4reg 7 ++ tailAtt ∧
        ∀ h ∈ tailAtt, h ∈ c4reg.allConns) ∧
      (∀ h, ([1, 2] : List Nat).count h ≤ 2 ∧ ([1, 2] : List Nat).count h ≤ 1) :=
  C4_broadcast_recipients send_all_ok c4reg 7 [1, 2] [1, 2] (by decide) rfl

/-- C6: `_safe_send` converts every transport failure into a `False` return
instead of an exception, so a broadcast never propagates an error for any
transport behaviour; every subscriber in the snapshot is attempted no matter
which sends fail (one broken subscriber cannot abort delivery to the rest);
and broadcasting with zero registered subscribers succeeds as a no-op. -/
theorem C6_broadcast_failures_isolated (send : SendEnv) (r : Registry) (g : Int) :
    (∀ ws, _safe_send send ws = .ok (sendOk send ws)) ∧
      (∃ att del, notify_leaderboard_update send r g = .ok (r, att, del) ∧
        (∀ h, h ∈ scopedBucket r g ∨ h ∈ r.allConns → h ∈ att)) ∧
      (scopedBucket r g = [] → r.allConns = [] →
        notify_leaderboard_update send r g = .ok (r, [], [])) := by
  refine ⟨safe_send_eq send, ⟨_, _, notify_spec send r g, ?_⟩, ?_⟩
  · intro h hmem
    rcases hmem with h1 | h2
    · exact List.mem_append.mpr (Or.inl h1)
    · by_cases hd : h ∈ (scopedBucket r g).filter (fun w => sendOk send w)
      · exact List.mem_append.mpr (Or.inl (List.mem_of_mem_filter hd))
      · refine List.mem_append.mpr (Or.inr ?_)
        rw [List.mem_filter]
        exact ⟨h2, decide_eq_true hd⟩
  · intro h1 h2
    rw [notify_spec, h1, h2]
    rfl

/-- C6 witness: with handles 1 and 4 scoped to game 5 and handle 6 global,
under a transport where sending to handle 1 raises, the broadcast still
returns successfully and attempts every subscriber. -/
theorem C6_broadcast_failures_isolated_witness :
    (∀ ws, _safe_send send_fail_one ws = .ok (sendOk send_fail_one ws)) ∧
      (∃ att del, notify_leaderboard_update send_fail_one c6reg 5 = .ok (c6reg, att, del) ∧
        (∀ h, h ∈ scopedBucket c6reg 5 ∨ h ∈ c6reg.allConns → h ∈ att)) ∧
      (scopedBucket c6reg 5 = [] → c6reg.allConns = [] →
        notify_leaderboard_update send_fail_one c6reg 5 = .ok (c6reg, [], [])) :=
  C6_broadcast_failures_isolated send_fail_one c6reg 5

/-- C10: `notify_leaderboard_update` never mutates the registry: whatever
transport behaviour and whatever result it returns, the registry component of
the outcome is the input registry, with every game bucket and the global set
unchanged (the broadcast works on snapshot copies). -/
theorem C10_broadcast_frame (send : SendEnv) (r : Registry) (g : Int)
    (res : Registry × List Nat × List Nat)
    (hrun : notify_leaderboard_update send r g = .ok res) :
    res.1 = r ∧ (∀ g2, lookupBucket res.1 g2 = lookupBucket r g2) ∧
      res.1.allConns = r.allConns := by
  rw [notify_spec] at hrun
  injection hrun with h
  rw [← h]
  exact ⟨rfl, fun g2 => rfl, rfl⟩

/-- C10 witness: a concrete broadcast to game 3 leaves the registry state
untouched. -/
theorem C10_broadcast_frame_witness :
    (c10reg, ([4, 8] : List Nat), ([4, 8] : List Nat)).1 = c10reg ∧
      (∀ g2, lookupBucket (c10reg, ([4, 8] : List Nat), ([4, 8] : List Nat)).1 g2 =
        lookupBucket c10reg g2) ∧
      (c10reg, ([4, 8] : List Nat), ([4, 8] : List Nat)).1.allConns = c10reg.allConns :=
  C10_broadcast_frame send_all_ok c10reg 3 (c10reg, [4, 8], [4, 8]) rfl

/-!
Association-list lemmas for the registry dictionary.
-/

theorem find?_filter_of_imp {α : Type} (l : List α) (p q : α → Bool)
    (himp : ∀ x, p x = true → q x = true) :
    (l.filter q).find? p = l.find? p := by
  induction l with
  | nil => rfl
  | cons a t ih =>
    by_cases hq : q a = true
    · rw [List.filter_cons, if_pos hq]
      by_cases hp : p a = true
      · rw [List.find?_cons_of_pos _ hp, List.find?_cons_of_pos _ hp]
      · rw [List.find?_cons_of_neg _ (by simp [hp]),
          List.find?_cons_of_neg _ (by simp [hp])]
        exact ih
    · have hp : ¬ p a = true := fun hpa => hq (himp a hpa)
      rw [List.filter_cons, if_neg hq, ih,
        List.find?_cons_of_neg _ (by simp [hp])]

theorem find?_map_keyfst (l : List (Int × List Nat))
    (f : Int × List Nat → Int × List Nat) (hf : ∀ x, (f x).1 = x.1) (g : Int) :
    (l.map f).find? (fun p => p.1 == g) =
      (l.find? (fun p => p.1 == g)).map f := by
  induction l with
  | nil => rfl
  | cons a t ih =>
    by_cases hp : (a.1 == g) = true
    · rw [List.map_cons,
        @List.find?_cons_of_pos _ (fun p => p.1 == g) (f a) (t.map f)
          (by simpa [hf] using hp),
        @List.find?_cons_of_pos _ (fun p => p.1 == g) a t hp]
      rfl
    · rw [List.map_cons,
        @List.find?_cons_of_neg _ (fun p => p.1 == g) (f a) (t.map f)
          (by simpa [hf] using hp),
        @List.find?_cons_of_neg _ (fun p => p.1 == g) a t hp]
      exact ih

theorem find?_key_unique {l : List (Int × List Nat)}
    (hk : (l.map Prod.fst).Nodup) {p : Int × List Nat} (hp : p ∈ l) :
    l.find? (fun q => q.1 == p.1) = some p := by
  induction l with
  | nil => exact absurd hp (List.not_mem_nil p)
  | cons a t ih =>
    rw [List.map_cons, List.nodup_cons] at hk
    rcases List.mem_cons.mp hp with rfl | hp2
    · rw [@List.find?_cons_of_pos _ (fun q => q.1 == p.1) p t (by simp)]
    · have hne : ¬ (a.1 == p.1) = true := by
        simp only [beq_iff_eq]
        intro he
        exact hk.1 (he ▸ List.mem_map_of_mem Prod.fst hp2)
      rw [@List.find?_cons_of_neg _ (fun q => q.1 == p.1) a t hne]
      exact ih hk.2 hp2

theorem list_map_self {α : Type} {l : List α} {f : α → α}
    (h : ∀ a ∈ l, f a = a) : l.map f = l := by
  induction l with
  | nil => rfl
  | cons a t ih =>
    rw [List.map_cons, h a (List.mem_cons_self a t),
      ih (fun b hb => h b (List.mem_cons_of_mem a hb))]

/-- Effect of `_unregister_connection` with a game id on every bucket: the
target bucket loses the handle (disappearing entirely when emptied), all
other buckets are untouched. -/
theorem lookupBucket_unregister_some (r : Registry) (ws : Nat) (gid g2 : Int) :
    lookupBucket (_unregister_connection r ws (some gid)) g2 =
      if g2 = gid then
        match lookupBucket r gid with
        | none => none
        | some bucket =>
            if (bucket.erase ws).isEmpty then none else some (bucket.erase ws)
      else lookupBucket r g2 := by
  unfold _unregister_connection
  cases hb : lookupBucket r gid with
  | none =>
      simp only [hb]
      by_cases hg : g2 = gid
      · subst hg
        simp [hb]
      · simp [hg]
  | some bucket =>
      simp only [hb]
      have hfind : r.byGame.find? (fun p => p.1 == gid) = some (gid, bucket) := by
        unfold lookupBucket at hb
        cases hf : r.byGame.find? (fun p => p.1 == gid) with
        | none => rw [hf] at hb; exact absurd hb (by simp)
        | some p0 =>
            rw [hf] at hb
            have h1 : p0.1 = gid := by simpa using List.find?_some hf
            have h2 : p0.2 = bucket := by simpa using hb
            rw [← h1, ← h2]
      by_cases he : (bucket.erase ws).isEmpty = true
      · rw [if_pos he]
        by_cases hg : g2 = gid
        · subst hg
          rw [if_pos rfl, if_pos he]
          unfold lookupBucket
          rw [List.find?_eq_none.mpr]
          · rfl
          · intro x hx
            have hxf := (List.mem_filter.mp hx).2
            simp only [Bool.not_eq_true', beq_eq_false_iff_ne] at hxf
            simp [hxf]
        · rw [if_neg hg]
          unfold lookupBucket
          rw [find?_filter_of_imp]
          intro x hx
          simp only [beq_iff_eq] at hx
          simp only [Bool.not_eq_true', beq_eq_false_iff_ne]
          rw [hx]
          exact hg
      · rw [if_neg he]
        by_cases hg : g2 = gid
        · subst hg
          rw [if_pos rfl, if_neg he]
          unfold lookupBucket
          rw [find?_map_keyfst _ _ (fun x => by split <;> rfl), hfind]
          simp
        · rw [if_neg hg]
          unfold lookupBucket
          rw [find?_map_keyfst _ _ (fun x => by split <;> rfl)]
          cases hf2 : r.byGame.find? (fun p => p.1 == g2) with
          | none => rfl
          | some q =>
              have hq : q.1 = g2 := by simpa using List.find?_some hf2
              have : (if q.1 = gid then (q.1, bucket.erase ws) else q) = q := by
                rw [if_neg (by rw [hq]; exact hg)]
              simp [this]

/-- `_unregister_connection` with a game id never touches the global set, and
without one never touches the buckets. -/
theorem unregister_frame (r : Registry) (ws : Nat) :
    (∀ gid : Int, (_unregister_connection r ws (some gid)).allConns = r.allConns) ∧
      (_unregister_connection r ws none).byGame = r.byGame := by
  refine ⟨fun gid => ?_, rfl⟩
  unfold _unregister_connection
  cases hb : lookupBucket r gid with
  | none => simp only [hb]
  | some bucket =>
      simp only [hb]
      by_cases he : (bucket.erase ws).isEmpty = true
      · rw [if_pos he]
      · rw [if_neg he]

/-- After `_unregister_connection`, no empty bucket remains. -/
theorem unregister_no_empty_bucket (r : Registry) (ws : Nat)
    (go : Option Int) (hwf : r.WF) :
    ∀ p ∈ (_unregister_connection r ws go).byGame, p.2 ≠ [] := by
  match go with
  | none => exact fun p hp => (hwf.2.1 p hp).1
  | some gid =>
      unfold _unregister_connection
      cases hb : lookupBucket r gid with
      | none =>
          simp only [hb]
          exact fun p hp => (hwf.2.1 p hp).1
      | some bucket =>
          simp only [hb]
          by_cases he : (bucket.erase ws).isEmpty = true
          · rw [if_pos he]
            intro p hp
            exact (hwf.2.1 p (List.mem_of_mem_filter hp)).1
          · rw [if_neg he]
            intro p hp
            obtain ⟨q, hq, hfq⟩ := List.mem_map.mp hp
            by_cases hqg : q.1 = gid
            · rw [if_pos hqg] at hfq
              rw [← hfq]
              intro hnil
              exact he (by rw [show bucket.erase ws = ([] : List Nat) from hnil]; rfl)
            · rw [if_neg hqg] at hfq
              rw [← hfq]
              exact (hwf.2.1 q hq).1

/-- A `lookupBucket` hit comes from a dictionary entry with that key. -/
theorem find?_of_lookupBucket {r : Registry} {gid : Int} {bucket : List Nat}
    (hb : lookupBucket r gid = some bucket) :
    r.byGame.find? (fun p => p.1 == gid) = some (gid, bucket) := by
  unfold lookupBucket at hb
  cases hf : r.byGame.find? (fun p => p.1 == gid) with
  | none => rw [hf] at hb; exact absurd hb (by simp)
  | some p0 =>
      rw [hf] at hb
      have h1 : p0.1 = gid := by simpa using List.find?_some hf
      have h2 : p0.2 = bucket := by simpa using hb
      rw [← h1, ← h2]

/-- Unregistering a handle that is absent from the relevant set leaves the
registry exactly as it was (Python `set.discard` of an absent element plus an
unchanged dictionary). -/
theorem unregister_noop (r : Registry) (ws : Nat) (go : Option Int)
    (hwf : r.WF) (habs : ws ∉ relevantSet r go) :
    _unregister_connection r ws go = r := by
  match go with
  | none =>
      unfold _unregister_connection
      have habs2 : ws ∉ r.allConns := habs
      rw [List.erase_of_not_mem habs2]
  | some gid =>
      unfold _unregister_connection
      cases hb : lookupBucket r gid with
      | none => simp only [hb]
      | some bucket =>
          simp only [hb]
          have hfind := find?_of_lookupBucket hb
          have hmem : (gid, bucket) ∈ r.byGame := List.mem_of_find?_eq_some hfind
          have habs2 : ws ∉ bucket := by
            intro hin
            apply habs
            show ws ∈ scopedBucket r gid
            unfold scopedBucket
            rw [hb]
            exact hin
          rw [List.erase_of_not_mem habs2]
          have hne : ¬ bucket.isEmpty = true := by
            intro hempty
            exact (hwf.2.1 _ hmem).1 (List.isEmpty_iff.mp hempty)
          rw [if_neg hne]
          have hmapid : r.byGame.map
              (fun p => if p.1 = gid then (p.1, bucket) else p) = r.byGame := by
            apply list_map_self
            intro p hp
            by_cases hpg : p.1 = gid
            · have hup := find?_key_unique hwf.1 hp
              rw [hpg, hfind] at hup
              have : p = (gid, bucket) := by
                injection hup with h
                exact h.symm
              rw [if_pos hpg, this]
            · rw [if_neg hpg]
          rw [hmapid]

/-- Unregistering preserves the registry's well-formedness. -/
theorem unregister_WF (r : Registry) (ws : Nat) (go : Option Int)
    (hwf : r.WF) : (_unregister_connection r ws go).WF := by
  match go with
  | none => exact ⟨hwf.1, hwf.2.1, hwf.2.2.erase ws⟩
  | some gid =>
      unfold _unregister_connection
      cases hb : lookupBucket r gid with
      | none =>
          simp only [hb]
          exact hwf
      | some bucket =>
          simp only [hb]
          have hfind := find?_of_lookupBucket hb
          have hmem : (gid, bucket) ∈ r.byGame := List.mem_of_find?_eq_some hfind
          have hbnodup : bucket.Nodup := (hwf.2.1 _ hmem).2
          by_cases he : (bucket.erase ws).isEmpty = true
          · rw [if_pos he]
            refine ⟨?_, ?_, hwf.2.2⟩
            · exact List.Nodup.sublist
                ((List.filter_sublist r.byGame).map Prod.fst) hwf.1
            · intro p hp
              exact hwf.2.1 p (List.mem_of_mem_filter hp)
          · rw [if_neg he]
            refine ⟨?_, ?_, hwf.2.2⟩
            · have hkeys : (r.byGame.map
                  (fun p => if p.1 = gid then (p.1, bucket.erase ws) else p)).map
                    Prod.fst = r.byGame.map Prod.fst := by
                rw [List.map_map]
                apply List.map_congr_left
                intro p _
                show (if p.1 = gid then (p.1, bucket.erase ws) else p).1 = p.1
                split <;> rfl
              rw [hkeys]
              exact hwf.1
            · intro p hp
              obtain ⟨q, hq, hfq⟩ := List.mem_map.mp hp
              by_cases hqg : q.1 = gid
              · rw [if_pos hqg] at hfq
                rw [← hfq]
                refine ⟨?_, hbnodup.erase ws⟩
                intro hnil
                exact he (by
                  rw [show bucket.erase ws = ([] : List Nat) from hnil]; rfl)
              · rw [if_neg hqg] at hfq
                rw [← hfq]
                exact hwf.2.1 q hq

/-- After unregistering, the handle is gone from the relevant set. -/
theorem unregister_removes (r : Registry) (ws : Nat) (go : Option Int)
    (hwf : r.WF) :
    ws ∉ relevantSet (_unregister_connection r ws go) go := by
  match go with
  | none =>
      show ws ∉ (_unregister_connection r ws none).allConns
      intro hmem
      have hmem2 : ws ∈ r.allConns.erase ws := hmem
      exact (hwf.2.2.mem_erase_iff.mp hmem2).1 rfl
  | some gid =>
      show ws ∉ scopedBucket (_unregister_connection r ws (some gid)) gid
      unfold scopedBucket
      rw [lookupBucket_unregister_some, if_pos rfl]
      cases hb : lookupBucket r gid with
      | none => simp
      | some bucket =>
          simp only [hb]
          have hbnodup : bucket.Nodup :=
            (hwf.2.1 _ (List.mem_of_find?_eq_some (find?_of_lookupBucket hb))).2
          by_cases he : (bucket.erase ws).isEmpty = true
          · simp [he]
          · simp only [he, if_false, Option.getD_some]
            intro hmem
            exact (hbnodup.mem_erase_iff.mp hmem).1 rfl

/-- Bucket membership after `_unregister_connection`: exactly the old
membership minus the removed handle in the targeted bucket. -/
theorem unregister_mem_bucket (r : Registry) (ws : Nat) (go : Option Int)
    (hwf : r.WF) (g2 : Int) (h : Nat) :
    h ∈ scopedBucket (_unregister_connection r ws go) g2 ↔
      (h ∈ scopedBucket r g2 ∧ ¬(go = some g2 ∧ h = ws)) := by
  match go with
  | none =>
      have hsame : scopedBucket (_unregister_connection r ws none) g2 =
          scopedBucket r g2 := rfl
      rw [hsame]
      simp
  | some gid =>
      unfold scopedBucket
      rw [lookupBucket_unregister_some]
      by_cases hg : g2 = gid
      · rw [if_pos hg]
        subst hg
        cases hb : lookupBucket r g2 with
        | none => simp [hb]
        | some bucket =>
            simp only [hb]
            have hbnodup : bucket.Nodup :=
              (hwf.2.1 _ (List.mem_of_find?_eq_some (find?_of_lookupBucket hb))).2
            by_cases he : (bucket.erase ws).isEmpty = true
            · rw [if_pos he]
              constructor
              · intro hmem
                exact absurd hmem (List.not_mem_nil h)
              · rintro ⟨hmem, hno⟩
                have hmem2 : h ∈ bucket := hmem
                have hin : h ∈ bucket.erase ws :=
                  hbnodup.mem_erase_iff.mpr ⟨fun heq => hno ⟨by trivial, heq⟩, hmem2⟩
                rw [List.isEmpty_iff.mp he] at hin
                exact absurd hin (List.not_mem_nil h)
            · rw [if_neg he]
              constructor
              · intro hmem
                have hmem2 : h ∈ bucket.erase ws := hmem
                obtain ⟨hne, hmem3⟩ := hbnodup.mem_erase_iff.mp hmem2
                exact ⟨hmem3, fun hc => hne hc.2⟩
              · rintro ⟨hmem, hno⟩
                have hmem2 : h ∈ bucket := hmem
                exact hbnodup.mem_erase_iff.mpr ⟨fun heq => hno ⟨by trivial, heq⟩, hmem2⟩
      · rw [if_neg hg]
        have hnever : ¬((some gid : Option Int) = some g2 ∧ h = ws) := by
          rintro ⟨hc, -⟩
          injection hc with hc2
          exact hg hc2.symm
        exact ⟨fun hmem => ⟨hmem, hnever⟩, fun hmem => hmem.1⟩

/-- Global-set membership after `_unregister_connection`: exactly the old
membership minus the removed handle for a global unregister. -/
theorem unregister_mem_all (r : Registry) (ws : Nat) (go : Option Int)
    (hwf : r.WF) (h : Nat) :
    h ∈ (_unregister_connection r ws go).allConns ↔
      (h ∈ r.allConns ∧ ¬(go = none ∧ h = ws)) := by
  match go with
  | none =>
      have he : (_unregister_connection r ws none).allConns =
          r.allConns.erase ws := rfl
      rw [he, hwf.2.2.mem_erase_iff]
      constructor
      · rintro ⟨hne, hmem⟩
        exact ⟨hmem, fun hc => hne hc.2⟩
      · rintro ⟨hmem, hno⟩
        exact ⟨fun heq => hno ⟨by trivial, heq⟩, hmem⟩
  | some gid =>
      rw [(unregister_frame r ws).1 gid]
      simp

/-- Registry used by the unregister witness: handles 5 and 6 scoped to game
1, handle 9 global. -/
def c7reg : Registry := ⟨[(1, [5, 6])], [9]⟩

/-- C7: `_unregister_connection` removes the handle from exactly the
relevant set (the global set when no game id is given, else that game's
bucket), leaves every other membership unchanged, never leaves an empty
bucket behind, is a no-op (not an error) when the handle is absent, and is
idempotent. -/
theorem C7_unregister_spec (r : Registry) (ws : Nat) (go : Option Int)
    (hwf : r.WF) :
    (∀ (g2 : Int) (h : Nat),
      h ∈ scopedBucket (_unregister_connection r ws go) g2 ↔
        (h ∈ scopedBucket r g2 ∧ ¬(go = some g2 ∧ h = ws))) ∧
      (∀ h, h ∈ (_unregister_connection r ws go).allConns ↔
        (h ∈ r.allConns ∧ ¬(go = none ∧ h = ws))) ∧
      (∀ p ∈ (_unregister_connection r ws go).byGame, p.2 ≠ []) ∧
      (ws ∉ relevantSet r go → _unregister_connection r ws go = r) ∧
      _unregister_connection (_unregister_connection r ws go) ws go =
        _unregister_connection r ws go :=
  ⟨fun g2 h => unregister_mem_bucket r ws go hwf g2 h,
    fun h => unregister_mem_all r ws go hwf h,
    unregister_no_empty_bucket r ws go hwf,
    fun habs => unregister_noop r ws go hwf habs,
    unregister_noop _ ws go (unregister_WF r ws go hwf)
      (unregister_removes r ws go hwf)⟩

/-- C7 witness: unregistering handle 5 from game 1 in a concrete registry. -/
theorem C7_unregister_spec_witness :
    (∀ (g2 : Int) (h : Nat),
      h ∈ scopedBucket (_unregister_connection c7reg 5 (some 1)) g2 ↔
        (h ∈ scopedBucket c7reg g2 ∧ ¬((some 1 : Option Int) = some g2 ∧ h = 5))) ∧
      (∀ h, h ∈ (_unregister_connection c7reg 5 (some 1)).allConns ↔
        (h ∈ c7reg.allConns ∧ ¬((some 1 : Option Int) = none ∧ h = 5))) ∧
      (∀ p ∈ (_unregister_connection c7reg 5 (some 1)).byGame, p.2 ≠ []) ∧
      (5 ∉ relevantSet c7reg (some 1) → _unregister_connection c7reg 5 (some 1) = c7reg) ∧
      _unregister_connection (_unregister_connection c7reg 5 (some 1)) 5 (some 1) =
        _unregister_connection c7reg 5 (some 1) :=
  C7_unregister_spec c7reg 5 (some 1) (by decide)

/-!
Claims C5, C8, C9.
-/

/-- C5: the claim that a successful score submission ends by invoking the
broadcast fails on the code: `post_game_score` appends the event and computes
the stats but contains no call to `notify_leaderboard_update`, so no trace of
the handler ever contains the broadcast effect. The second conjunct evaluates
the handler on a concrete successful submission. -/
theorem C5_submit_never_broadcasts :
    (∀ (gameExists : Bool) (u s : Int),
      SubmitEffect.broadcastUpdate ∉ ((post_game_score gameExists u s).toOption.getD [])) ∧
      post_game_score true 1 5 =
        .ok [SubmitEffect.appendEvent, SubmitEffect.computeStats] := by
  constructor
  · intro gameExists u s
    unfold post_game_score
    by_cases h1 : u < 1
    · rw [if_pos h1]
      decide
    · rw [if_neg h1]
      by_cases h2 : s < 0
      · rw [if_pos h2]
        decide
      · rw [if_neg h2]
        by_cases h3 : gameExists = false
        · rw [if_pos h3]
          decide
        · rw [if_neg h3]
          decide
  · rfl

/-- C8: when the `game_id` query parameter is present but `int(...)` cannot
parse it, the subscription degrades to a global one: the game filter is
`None`, the connection lands in the global set, and no game bucket is
touched. -/
theorem C8_malformed_filter_goes_global (r : Registry) (ws : Nat)
    (raw : List Char) (hbad : pyInt raw = none) :
    (leaderboard_ws_subscribe r ws (some raw)).2 = none ∧
      ws ∈ (leaderboard_ws_subscribe r ws (some raw)).1.allConns ∧
      (leaderboard_ws_subscribe r ws (some raw)).1.byGame = r.byGame := by
  unfold leaderboard_ws_subscribe
  simp only [hbad]
  refine ⟨by trivial, ?_, by trivial⟩
  unfold _register_connection insertHandle
  by_cases hmem : ws ∈ r.allConns
  · rw [if_pos hmem]
    exact hmem
  · rw [if_neg hmem]
    exact List.mem_append.mpr (Or.inr (List.mem_singleton.mpr rfl))

/-- C8 witness: subscribing with the malformed filter `abc` registers the
connection globally. -/
theorem C8_malformed_filter_goes_global_witness :
    (leaderboard_ws_subscribe c7reg 11 (some ['a', 'b', 'c'])).2 = none ∧
      11 ∈ (leaderboard_ws_subscribe c7reg 11 (some ['a', 'b', 'c'])).1.allConns ∧
      (leaderboard_ws_subscribe c7reg 11 (some ['a', 'b', 'c'])).1.byGame = c7reg.byGame :=
  C8_malformed_filter_goes_global c7reg 11 ['a', 'b', 'c'] rfl

/-!
Claim C9: the ping/pong keep-alive reply.
-/

theorem dropWhile_append_all {p : Char → Bool} (l1 l2 : List Char)
    (hall : l1.all p = true) :
    List.dropWhile p (l1 ++ l2) = List.dropWhile p l2 := by
  induction l1 with
  | nil => rfl
  | cons a t ih =>
      rw [List.all_cons, Bool.and_eq_true] at hall
      rw [List.cons_append, List.dropWhile_cons, if_pos hall.1]
      exact ih hall.2

theorem space_toLower {c : Char} (h : isPySpace c = true) :
    Char.toLower c = c := by
  unfold isPySpace at h
  simp only [Bool.or_eq_true, beq_iff_eq] at h
  rcases h with ((((rfl | rfl) | rfl) | rfl) | rfl) | rfl <;> rfl

theorem isPySpace_eq_false_of_lower {c t : Char} (h : Char.toLower c = t)
    (ht : isPySpace t = false) : isPySpace c = false := by
  by_cases hc : isPySpace c = true
  · have hcc := space_toLower hc
    rw [hcc] at h
    rw [h] at hc
    rw [hc] at ht
    exact absurd ht (by simp)
  · exact eq_false_of_ne_true hc

/-- Every string splits as whitespace, its stripped core, and whitespace. -/
theorem pyStrip_decompose (data : List Char) :
    ∃ pre post, data = pre ++ pyStrip data ++ post ∧
      pre.all isPySpace = true ∧ post.all isPySpace = true := by
  refine ⟨data.takeWhile isPySpace,
    ((data.dropWhile isPySpace).reverse.takeWhile isPySpace).reverse, ?_, ?_, ?_⟩
  · conv_lhs => rw [← List.takeWhile_append_dropWhile isPySpace data]
    rw [List.append_assoc]
    congr 1
    conv_lhs => rw [← List.reverse_reverse (data.dropWhile isPySpace),
      ← List.takeWhile_append_dropWhile isPySpace (data.dropWhile isPySpace).reverse]
    rw [List.reverse_append]
    rfl
  · rw [List.all_eq_true]
    intro x hx
    exact List.mem_takeWhile_imp hx
  · rw [List.all_reverse, List.all_eq_true]
    intro x hx
    exact List.mem_takeWhile_imp hx

/-- Stripping a four-character core padded with whitespace returns the core
when the core's first and last characters are not whitespace. -/
theorem pyStrip_four (pre post : List Char) (c1 c2 c3 c4 : Char)
    (hpre : pre.all isPySpace = true) (hpost : post.all isPySpace = true)
    (h1 : isPySpace c1 = false) (h4 : isPySpace c4 = false) :
    pyStrip (pre ++ [c1, c2, c3, c4] ++ post) = [c1, c2, c3, c4] := by
  unfold pyStrip
  rw [List.append_assoc, dropWhile_append_all _ _ hpre]
  rw [show ([c1, c2, c3, c4] ++ post) = c1 :: ([c2, c3, c4] ++ post) from rfl]
  rw [List.dropWhile_cons, if_neg (by rw [h1]; simp)]
  have hrev : (c1 :: ([c2, c3, c4] ++ post)).reverse =
      post.reverse ++ [c4, c3, c2, c1] := by
    simp
  rw [hrev, dropWhile_append_all _ _ (by rw [List.all_reverse]; exact hpost)]
  rw [List.dropWhile_cons, if_neg (by rw [h4]; simp)]
  rfl

/-- A string whose lowercase form is `ping` is exactly four characters that
lower to p, i, n, g. -/
theorem four_of_pyLower {core : List Char}
    (h : pyLower core = ['p', 'i', 'n', 'g']) :
    ∃ c1 c2 c3 c4, core = [c1, c2, c3, c4] ∧ Char.toLower c1 = 'p' ∧
      Char.toLower c2 = 'i' ∧ Char.toLower c3 = 'n' ∧ Char.toLower c4 = 'g' := by
  unfold pyLower at h
  rcases core with _ | ⟨c1, _ | ⟨c2, _ | ⟨c3, _ | ⟨c4, rest⟩⟩⟩⟩
  · exact absurd h (by simp)
  · exact absurd h (by simp)
  · exact absurd h (by simp)
  · exact absurd h (by simp)
  · simp only [List.map_cons, List.cons.injEq] at h
    obtain ⟨h1, h2, h3, h4, h5⟩ := h
    have hrest : rest = [] := List.map_eq_nil_iff.mp h5
    exact ⟨c1, c2, c3, c4, by rw [hrest], h1, h2, h3, h4⟩

/-- C9 counterexample: the message `" PING "` is not the exact
case-insensitive token `ping` (its lowercase form keeps the surrounding
whitespace), yet the server replies `pong` to it, because the code strips
whitespace before comparing. So "replies iff the message is the exact
case-insensitive token" fails as stated. -/
theorem C9_claim_counterexample :
    wsReply [' ', 'P', 'I', 'N', 'G', ' '] = some ['p', 'o', 'n', 'g'] ∧
      pyLower [' ', 'P', 'I', 'N', 'G', ' '] ≠ ['p', 'i', 'n', 'g'] := by
  constructor
  · rfl
  · decide

/-- C9 as amended: the server replies `pong` exactly when the message
consists of the case-insensitive token `ping` surrounded by (possibly empty)
whitespace — i.e. when the message after stripping leading and trailing
whitespace case-insensitively equals `ping` — and `pong` is the only reply it
ever sends; any other text gets no reply. -/
theorem C9_ping_reply (data : List Char) :
    (wsReply data = some ['p', 'o', 'n', 'g'] ↔
      ∃ pre core post, data = pre ++ core ++ post ∧ pre.all isPySpace = true ∧
        post.all isPySpace = true ∧ pyLower core = ['p', 'i', 'n', 'g']) ∧
      ∀ rep, wsReply data = some rep → rep = ['p', 'o', 'n', 'g'] := by
  constructor
  · constructor
    · intro hpong
      have hcond : pyLower (pyStrip data) = ['p', 'i', 'n', 'g'] := by
        by_contra hc
        unfold wsReply at hpong
        rw [if_neg hc] at hpong
        exact absurd hpong (by simp)
      obtain ⟨pre, post, hdata, hpre, hpost⟩ := pyStrip_decompose data
      exact ⟨pre, pyStrip data, post, hdata, hpre, hpost, hcond⟩
    · rintro ⟨pre, core, post, hdata, hpre, hpost, hcore⟩
      obtain ⟨c1, c2, c3, c4, rfl, hl1, hl2, hl3, hl4⟩ := four_of_pyLower hcore
      have h1 : isPySpace c1 = false :=
        isPySpace_eq_false_of_lower hl1 (by decide)
      have h4 : isPySpace c4 = false :=
        isPySpace_eq_false_of_lower hl4 (by decide)
      have hstrip : pyStrip data = [c1, c2, c3, c4] := by
        rw [hdata]
        exact pyStrip_four pre post c1 c2 c3 c4 hpre hpost h1 h4
      unfold wsReply
      rw [hstrip, hcore]
      rfl
  · intro rep hrep
    unfold wsReply at hrep
    by_cases hc : pyLower (pyStrip data) = ['p', 'i', 'n', 'g']
    · rw [if_pos hc] at hrep
      injection hrep with h
      exact h.symm
    · rw [if_neg hc] at hrep
      exact absurd hrep (by simp)

/-- C9 witness: the reply to `" PING "` is `pong`, witnessed through the
whitespace/token decomposition, and `pong` is the only possible reply. -/
theorem C9_ping_reply_witness :
    (wsReply [' ', 'P', 'I', 'N', 'G', ' '] = some ['p', 'o', 'n', 'g'] ↔
      ∃ pre core post, [' ', 'P', 'I', 'N', 'G', ' '] = pre ++ core ++ post ∧
        pre.all isPySpace = true ∧ post.all isPySpace = true ∧
        pyLower core = ['p', 'i', 'n', 'g']) ∧
      ∀ rep, wsReply [' ', 'P', 'I', 'N', 'G', ' '] = some rep →
        rep = ['p', 'o', 'n', 'g'] :=
  C9_ping_reply [' ', 'P', 'I', 'N', 'G', ' ']
